import Mathlib

/-!
Shallow embedding of the `timeseries-tools` repository (persistence models in
`src/models/persistence.py` and the walk-forward splitter in
`src/validation/splitters.py`).

Modelling conventions:
* pandas timestamps are totally ordered; we embed them as `Int` (e.g. days).
  `pd.Timedelta` durations are likewise `Int`.
* numeric cell values are rationals (`ℚ`); a missing value (`NaN`) in a cell
  is `none` in `Option ℚ`.
* a DataFrame row is a structure carrying the original index label (`idx`),
  the timestamp column `ds`, and the remaining columns (`extra`).
* operations that raise Python exceptions return `Except`/`Option` values.
-/

/-- A row of a query frame passed to `predict`: the original index label
`idx` (row identity), the timestamp `ds`, and all other columns `extra`
(cells may be missing, i.e. `NaN`). -/
structure QueryRow where
  idx : Nat
  ds : Int
  extra : List (Option ℚ)
  deriving Repr, DecidableEq

/-- A row of the frame returned by `predict`: the input row plus the new
`yhat` column (possibly `NaN`). -/
structure OutRow where
  idx : Nat
  ds : Int
  extra : List (Option ℚ)
  yhat : Option ℚ
  deriving Repr, DecidableEq

/-- Monotone non-decreasing list of timestamps: the sortedness condition
`pandas.merge_asof` checks on its key columns. -/
def isMonoAsc : List Int → Bool
  | [] => true
  | [_] => true
  | a :: b :: rest => decide (a ≤ b) && isMonoAsc (b :: rest)

/-- Errors raised by the `predict` methods: the explicit
`Exception('Model must be fit before predictions can be made.')` guard
(`untrained`), and `ValueError`s raised by pandas itself
(`merge_asof` on unsorted keys, `idxmax` of an empty series). -/
inductive PredictError where
  | untrained
  | valueError
  deriving Repr, DecidableEq

/-- Embedding of `pandas.merge_asof(left, right, on='ds',
direction='backward', allow_exact_matches=b)`.  pandas raises a
`ValueError` (here `none`) unless both key columns are monotonically
non-decreasing.  Each left row is matched with the last right row whose
key is `≤` its key (`<` when exact matches are disallowed); the matched
row's value column becomes `yhat` (`NaN` when there is no match or the
matched cell is `NaN`).  Left rows keep their order, index and columns. -/
def merge_asof (left : List QueryRow) (right : List (Int × Option ℚ))
    (allowExact : Bool) : Option (List OutRow) :=
  if isMonoAsc (left.map QueryRow.ds) && isMonoAsc (right.map Prod.fst) then
    some (left.map (fun r =>
      { idx := r.idx, ds := r.ds, extra := r.extra,
        yhat := ((right.filter (fun p =>
            if allowExact then decide (p.1 ≤ r.ds) else decide (p.1 < r.ds))).getLast?).bind
          Prod.snd }))
  else none

/-- Filling one cell with `DataFrame.fillna(v)`: a present value is kept, a
missing one becomes `v` (note `v` itself may be `NaN`, in which case the
cell stays missing). -/
def fillCell (v : Option ℚ) : Option ℚ → Option ℚ
  | some x => some x
  | none => v

/-- Embedding of `DataFrame.fillna(v)` on a predictions frame: every `NaN`
cell of every column (the `extra` columns as well as `yhat`) is replaced
by `v`. -/
def fillna (v : Option ℚ) (rows : List OutRow) : List OutRow :=
  rows.map (fun r =>
    { r with extra := r.extra.map (fillCell v), yhat := fillCell v r.yhat })

/-- Mean of a list of values, `none` for the empty list (pandas returns
`NaN` there). -/
def listMean (l : List ℚ) : Option ℚ :=
  if l.isEmpty then none else some (l.sum / l.length)

/-- Embedding of `Series.mean()` with its default `skipna=True`: the mean
of the present values, `NaN` when none are present. -/
def nanmean (l : List (Option ℚ)) : Option ℚ :=
  listMean (l.filterMap id)

/-- Embedding of `Series.idxmax` followed by `.loc`: the first row of the
list attaining the maximal timestamp; `none` (a `ValueError`) on the
empty list. -/
def idxmaxRow : List (Int × ℚ) → Option (Int × ℚ)
  | [] => none
  | r :: rs =>
    match idxmaxRow rs with
    | none => some r
    | some m => if m.1 ≤ r.1 then some r else some m

/-- State of `LatestValuePersistence`: `latest_value` is set in `__init__`
and never used afterwards; `training_data` holds the `(ds, yhat)` copy of
the training frame (the `ds`/`y` columns, `y` renamed to `yhat`). -/
structure LatestValuePersistence where
  latest_value : Option ℚ
  training_data : Option (List (Int × ℚ))
  trained : Bool
  deriving Repr, DecidableEq

/-- The `LatestValuePersistence()` constructor. -/
def LatestValuePersistence.init : LatestValuePersistence :=
  { latest_value := none, training_data := none, trained := false }

/-- `LatestValuePersistence.fit`: memorize a copy of the training frame's
`(ds, y)` columns with `y` renamed to `yhat`.  A training frame is
embedded directly as its list of `(ds, y)` pairs.  No sorting happens. -/
def LatestValuePersistence.fit (m : LatestValuePersistence)
    (df : List (Int × ℚ)) : LatestValuePersistence :=
  { m with training_data := some df, trained := true }

/-- `LatestValuePersistence.predict`: untrained guard, then a backward
as-of join of the query against the memorized training data with
`allow_exact_matches=False`, then `fillna` with the training value at the
maximal training timestamp (`idxmax`, computed after the merge). -/
def LatestValuePersistence.predict (m : LatestValuePersistence)
    (df : List QueryRow) : Except PredictError (List OutRow) :=
  if !m.trained then .error .untrained
  else
    match m.training_data with
    | none => .error .valueError
    | some td =>
      match merge_asof df (td.map (fun p => (p.1, some p.2))) false with
      | none => .error .valueError
      | some predictions =>
        match idxmaxRow td with
        | none => .error .valueError
        | some mx => .ok (fillna (some mx.2) predictions)

/-- Worker for the trailing rolling mean: `prevRev` holds the values of
the rows already passed, most recent first, so the trailing window of the
current row is the first `w` entries of `currentValue :: prevRev` (a mean
does not depend on the order of its window). -/
def rollingMeanGo (w : Nat) : List ℚ → List (Int × ℚ) → List (Int × Option ℚ)
  | _, [] => []
  | prevRev, p :: rest =>
    (p.1,
      if prevRev.length + 1 < w then none
      else listMean ((p.2 :: prevRev).take w))
      :: rollingMeanGo w (p.2 :: prevRev) rest

/-- The trailing rolling mean `DataFrame.rolling(window=w).mean()` with an
integer window and default options (`min_periods` defaults to the window
size): row `i` carries the mean of the values of rows `i+1-w .. i` when at
least `w` rows are available, `NaN` otherwise.  The timestamp index is
kept; rows stay in their input order. -/
def rollingMean (w : Nat) (l : List (Int × ℚ)) : List (Int × Option ℚ) :=
  rollingMeanGo w [] l

/-- State of `SlidingWindowPersistence` (integer-window mode with default
rolling options; the duration-string window mode and `**kwargs`
passthrough are not exercised by any claim). -/
structure SlidingWindowPersistence where
  window : Nat
  sliding_window : Option (List (Int × Option ℚ))
  trained : Bool
  deriving Repr, DecidableEq

/-- The `SlidingWindowPersistence(window)` constructor. -/
def SlidingWindowPersistence.init (w : Nat) : SlidingWindowPersistence :=
  { window := w, sliding_window := none, trained := false }

/-- `SlidingWindowPersistence.fit`: index the copied training frame by
`ds` (row order is kept, no sorting), rename `y` to `yhat`, and store its
trailing rolling mean. -/
def SlidingWindowPersistence.fit (m : SlidingWindowPersistence)
    (df : List (Int × ℚ)) : SlidingWindowPersistence :=
  { m with sliding_window := some (rollingMean m.window df), trained := true }

/-- `SlidingWindowPersistence.predict`: untrained guard, backward as-of
join against the rolling-mean series with exact matches allowed (the
pandas default), then `fillna` with the mean of the rolling-mean series. -/
def SlidingWindowPersistence.predict (m : SlidingWindowPersistence)
    (df : List QueryRow) : Except PredictError (List OutRow) :=
  if !m.trained then .error .untrained
  else
    match m.sliding_window with
    | none => .error .valueError
    | some sw =>
      match merge_asof df sw true with
      | none => .error .valueError
      | some predictions =>
        .ok (fillna (nanmean (sw.map Prod.snd)) predictions)

/-- State of `LaggedValuePersistence`: the lag duration and the
lag-shifted `(ds, yhat)` copy of the training frame. -/
structure LaggedValuePersistence where
  lag : Int
  lagged_df : Option (List (Int × ℚ))
  trained : Bool
  deriving Repr, DecidableEq

/-- The `LaggedValuePersistence(lag)` constructor. -/
def LaggedValuePersistence.init (lag : Int) : LaggedValuePersistence :=
  { lag := lag, lagged_df := none, trained := false }

/-- `LaggedValuePersistence.fit`: copy the `(ds, y)` columns, shift every
timestamp forward by `lag`, rename `y` to `yhat`.  No sorting happens. -/
def LaggedValuePersistence.fit (m : LaggedValuePersistence)
    (df : List (Int × ℚ)) : LaggedValuePersistence :=
  { m with lagged_df := some (df.map (fun p => (p.1 + m.lag, p.2))),
           trained := true }

/-- Stable insertion of a query row into a list sorted by `ds`, placing it
before the first row with a timestamp that is not smaller. -/
def insertByDs (x : QueryRow) : List QueryRow → List QueryRow
  | [] => [x]
  | y :: ys => if y.ds < x.ds then y :: insertByDs x ys else x :: y :: ys

/-- Embedding of `DataFrame.sort_values(by='ds')` on a query frame
(stable insertion sort; ties keep their input order). -/
def sortByDs : List QueryRow → List QueryRow
  | [] => []
  | x :: xs => insertByDs x (sortByDs xs)

/-- `LaggedValuePersistence.predict`: untrained guard, sort the copied
query frame by `ds`, backward as-of join against the lag-shifted training
data with exact matches allowed, then `fillna` with the mean of the
shifted training values. -/
def LaggedValuePersistence.predict (m : LaggedValuePersistence)
    (df : List QueryRow) : Except PredictError (List OutRow) :=
  if !m.trained then .error .untrained
  else
    match m.lagged_df with
    | none => .error .valueError
    | some ld =>
      match merge_asof (sortByDs df) (ld.map (fun p => (p.1, some p.2))) true with
      | none => .error .valueError
      | some predictions =>
        .ok (fillna (listMean (ld.map Prod.snd)) predictions)

/-- Stable insertion of a timestamp into a sorted list of timestamps. -/
def insertTs (x : Int) : List Int → List Int
  | [] => [x]
  | y :: ys => if y < x then y :: insertTs x ys else x :: y :: ys

/-- Embedding of `DataFrame.sort_values(by=tsc)` on the splitter input:
the list of timestamps in non-decreasing order (stable). -/
def sortTs : List Int → List Int
  | [] => []
  | x :: xs => insertTs x (sortTs xs)

/-- Errors raised by `cross_val_split`: the two explicit `ValueError`s of
the configuration checks, and the `IndexError` raised by `iloc` on an
empty frame. -/
inductive SplitError where
  | valueError (msg : String)
  | indexError
  deriving Repr, DecidableEq

/-- The walk-forward loop of `cross_val_split` (lines 66-83), instrumented
with the `(train_end, test_end)` window of every emitted pair.  Each
iteration filters the sorted frame into `train = [train_start, train_end)`
and `test = [train_end, test_end)`, emits the pair when both are
non-empty, advances both boundaries by `test_window`, and (when
`maximum_training_period` is set) recomputes `train_start` from the new
`train_end`.  The `while` loop is embedded with an explicit fuel; the
caller supplies enough fuel for every terminating run, and a run the
Python loop never finishes (`test_window ≤ 0` while `test_end < max_date`,
where `test_end` stops increasing) is modelled as `none`. -/
def splitLoopW (_df : List Int) (tw : Int) (maxTP : Option Int) :
    Nat → Int → Int → Int → Int →
    Option (List ((Int × Int) × (List Int × List Int)))
  | fuel, train_start, train_end, test_end, max_date =>
    if test_end < max_date then
      if tw ≤ 0 then none
      else
        match fuel with
        | 0 => none
        | fuel' + 1 =>
          let train := _df.filter (fun d => decide (train_start ≤ d) && decide (d < train_end))
          let test := _df.filter (fun d => decide (train_end ≤ d) && decide (d < test_end))
          let ts' := match maxTP with
            | some mtp => (train_end + tw) - mtp
            | none => train_start
          let rest := splitLoopW _df tw maxTP fuel' ts' (train_end + tw) (test_end + tw) max_date
          if train.length > 0 && test.length > 0 then
            rest.map (fun l => ((train_end, test_end), (train, test)) :: l)
          else rest
    else some []

/-- The walk-forward loop of `cross_val_split` exactly as the source
yields it: the `(train, test)` pairs of `splitLoopW` without the window
instrumentation. -/
def splitLoop (_df : List Int) (tw : Int) (maxTP : Option Int)
    (fuel : Nat) (train_start train_end test_end max_date : Int) :
    Option (List (List Int × List Int)) :=
  (splitLoopW _df tw maxTP fuel train_start train_end test_end max_date).map
    (List.map Prod.snd)

/-- The max-versus-min validation of `cross_val_split`: checked only
when both training periods are given. -/
def invalidPeriods (maxTP minTP : Option Int) : Bool :=
  match maxTP, minTP with
  | some mtp, some mnp => decide (mtp < mnp)
  | _, _ => false

/-- Embedding of `cross_val_split(df, minimum_training_period,
maximum_training_period, test_window)` (with the default timestamp
column).  The input frame is embedded as its list of timestamps, a
`(train, test)` pair as the corresponding timestamp sublists.  The result
is `some (.error e)` when the generator raises `e` on first advancement,
`some (.ok pairs)` when it yields `pairs` and stops, and `none` when the
loop never terminates (`test_window ≤ 0` with data left).  The Python
defaults are `minimum_training_period = some 7` (the 7-day Timedelta),
`maximum_training_period = none`, `test_window = some 1`. -/
def cross_val_split (df : List Int) (minTP maxTP tw : Option Int) :
    Option (Except SplitError (List (List Int × List Int))) :=
  let _df := sortTs df
  match tw with
  | none => some (.error (.valueError "Size of test window must be specified."))
  | some twv =>
    if invalidPeriods maxTP minTP then
      some (.error (.valueError
        "Maximum training period must be larger than the minimum training period"))
    else
      let mnp := minTP.getD twv
      match _df.getLast?, _df.head? with
      | some max_date, some train_start =>
        (splitLoop _df twv maxTP
          ((max_date - (train_start + mnp + twv)).toNat + 1)
          train_start (train_start + mnp)
          (train_start + mnp + twv) max_date).map Except.ok
      | _, _ => some (.error .indexError)

/-- `cross_val_split` called with every optional parameter left at its
Python default (`minimum_training_period='7d'`,
`maximum_training_period=None`, `test_window='1d'`). -/
def cross_val_split_with_defaults (df : List Int) :
    Option (Except SplitError (List (List Int × List Int))) :=
  cross_val_split df (some 7) none (some 1)

/-! Helper lemmas about the embedded primitives. -/

theorem isMonoAsc_cons_of {a : Int} {l : List Int}
    (h : isMonoAsc (a :: l) = true) : isMonoAsc l = true := by
  cases l with
  | nil => rfl
  | cons b t =>
    simp only [isMonoAsc, Bool.and_eq_true, decide_eq_true_eq] at h
    exact h.2

theorem isMonoAsc_head_le {a b : Int} {l : List Int}
    (h : isMonoAsc (a :: l) = true) (hb : b ∈ l) : a ≤ b := by
  induction l generalizing a with
  | nil => cases hb
  | cons c t ih =>
    simp only [isMonoAsc, Bool.and_eq_true, decide_eq_true_eq] at h
    rcases List.mem_cons.mp hb with rfl | hb
    · exact h.1
    · exact le_trans h.1 (ih h.2 hb)

theorem isMonoAsc_le_getLast {l : List Int} {x : Int}
    (h : isMonoAsc l = true) (hx : l.getLast? = some x) : ∀ a ∈ l, a ≤ x := by
  induction l with
  | nil => intro a ha; cases ha
  | cons b t ih =>
    intro a ha
    cases t with
    | nil =>
      simp only [List.getLast?_singleton, Option.some.injEq] at hx
      simp only [List.mem_singleton] at ha
      omega
    | cons c t2 =>
      rw [List.getLast?_cons_cons] at hx
      rcases List.mem_cons.mp ha with rfl | ha2
      · exact le_trans (isMonoAsc_head_le h (List.mem_cons_self c t2))
          (ih (isMonoAsc_cons_of h) hx c (List.mem_cons_self c t2))
      · exact ih (isMonoAsc_cons_of h) hx a ha2

theorem isMonoAsc_map_add {l : List Int} (c : Int) :
    isMonoAsc (l.map (fun x => x + c)) = isMonoAsc l := by
  induction l with
  | nil => rfl
  | cons a t ih =>
    cases t with
    | nil => rfl
    | cons b t2 =>
      simp only [List.map_cons] at ih ⊢
      simp only [isMonoAsc, ih]
      by_cases hab : a ≤ b
      · have : a + c ≤ b + c := by omega
        simp [hab, this]
      · have : ¬ a + c ≤ b + c := by omega
        simp [hab, this]

theorem fillCell_some (v : Option ℚ) (x : ℚ) : fillCell v (some x) = some x := rfl

theorem map_fillCell_of_all_isSome {e : List (Option ℚ)} (v : Option ℚ)
    (h : ∀ c ∈ e, c.isSome = true) : e.map (fillCell v) = e := by
  induction e with
  | nil => rfl
  | cons c t ih =>
    have hc := h c (List.mem_cons_self c t)
    rcases Option.isSome_iff_exists.mp hc with ⟨x, rfl⟩
    simp only [List.map_cons, fillCell_some, List.cons.injEq, true_and]
    exact ih (fun d hd => h d (List.mem_cons_of_mem _ hd))

theorem idxmaxRow_isSome {l : List (Int × ℚ)} (h : l ≠ []) :
    (idxmaxRow l).isSome = true := by
  cases l with
  | nil => exact absurd rfl h
  | cons r rs =>
    simp only [idxmaxRow]
    cases idxmaxRow rs with
    | none => rfl
    | some m =>
      by_cases hm : m.1 ≤ r.1 <;> simp [hm]

theorem idxmaxRow_eq_none {l : List (Int × ℚ)} :
    idxmaxRow l = none ↔ l = [] := by
  cases l with
  | nil => simp [idxmaxRow]
  | cons r rs =>
    simp only [idxmaxRow]
    cases idxmaxRow rs with
    | none => simp
    | some m => by_cases h : m.1 ≤ r.1 <;> simp [h]

theorem idxmaxRow_le {l : List (Int × ℚ)} {m p : Int × ℚ}
    (h : idxmaxRow l = some m) (hp : p ∈ l) : p.1 ≤ m.1 := by
  induction l generalizing m with
  | nil => cases hp
  | cons r rs ih =>
    simp only [idxmaxRow] at h
    rcases List.mem_cons.mp hp with rfl | hp
    · cases hrs : idxmaxRow rs with
      | none => rw [hrs] at h; cases h; exact le_refl _
      | some m2 =>
        rw [hrs] at h
        by_cases hm2 : m2.1 ≤ p.1
        · simp only [hm2, if_pos] at h; cases h; exact le_refl _
        · simp only [hm2, if_neg, not_false_iff] at h; cases h; omega
    · cases hrs : idxmaxRow rs with
      | none =>
        rw [idxmaxRow_eq_none.mp hrs] at hp
        cases hp
      | some m2 =>
        rw [hrs] at h
        have hple := ih hrs hp
        by_cases hm2 : m2.1 ≤ r.1
        · simp only [hm2, if_pos] at h; cases h; omega
        · simp only [hm2, if_neg, not_false_iff] at h; cases h; exact hple

theorem bind_snd_map_some (o : Option (Int × ℚ)) :
    (o.map (fun p => (p.1, some p.2))).bind Prod.snd = o.map Prod.snd := by
  cases o <;> rfl

theorem rollingMeanGo_map_fst (w : Nat) (pr : List ℚ) (l : List (Int × ℚ)) :
    (rollingMeanGo w pr l).map Prod.fst = l.map Prod.fst := by
  induction l generalizing pr with
  | nil => rfl
  | cons p rest ih => simp [rollingMeanGo, ih]

theorem rollingMean_map_fst (w : Nat) (l : List (Int × ℚ)) :
    (rollingMean w l).map Prod.fst = l.map Prod.fst :=
  rollingMeanGo_map_fst w [] l

theorem isMonoAsc_cons_head {a b : Int} {l : List Int}
    (h : isMonoAsc (a :: l) = true) (hb : l.head? = some b) : a ≤ b := by
  cases l with
  | nil => cases hb
  | cons c t =>
    simp only [List.head?_cons, Option.some.injEq] at hb
    subst hb
    simp only [isMonoAsc, Bool.and_eq_true, decide_eq_true_eq] at h
    exact h.1

theorem isMonoAsc_cons_intro {a : Int} {l : List Int}
    (hl : isMonoAsc l = true) (hhead : ∀ b, l.head? = some b → a ≤ b) :
    isMonoAsc (a :: l) = true := by
  cases l with
  | nil => rfl
  | cons b t =>
    simp only [isMonoAsc, Bool.and_eq_true, decide_eq_true_eq]
    exact ⟨hhead b rfl, hl⟩

theorem insertByDs_head {x b : QueryRow} {l : List QueryRow}
    (h : (insertByDs x l).head? = some b) : b = x ∨ l.head? = some b := by
  cases l with
  | nil =>
    simp only [insertByDs, List.head?_cons, Option.some.injEq] at h
    exact Or.inl h.symm
  | cons z zs =>
    by_cases hz : z.ds < x.ds
    · simp only [insertByDs, if_pos hz, List.head?_cons, Option.some.injEq] at h
      exact Or.inr (by simp [h])
    · simp only [insertByDs, if_neg hz, List.head?_cons, Option.some.injEq] at h
      exact Or.inl h.symm

theorem insertByDs_mono {x : QueryRow} {l : List QueryRow}
    (h : isMonoAsc (l.map QueryRow.ds) = true) :
    isMonoAsc ((insertByDs x l).map QueryRow.ds) = true := by
  induction l with
  | nil => rfl
  | cons y ys ih =>
    simp only [List.map_cons] at h
    by_cases hlt : y.ds < x.ds
    · simp only [insertByDs, if_pos hlt, List.map_cons]
      refine isMonoAsc_cons_intro (ih (isMonoAsc_cons_of h)) ?_
      intro b hb
      rcases List.head?_map QueryRow.ds (insertByDs x ys) ▸ hb with hb'
      rcases Option.map_eq_some'.mp hb' with ⟨r, hr, rfl⟩
      rcases insertByDs_head hr with rfl | hmem
      · omega
      · exact isMonoAsc_cons_head h
          (by rw [List.head?_map]; exact Option.map_eq_some'.mpr ⟨r, hmem, rfl⟩)
    · simp only [insertByDs, if_neg hlt, List.map_cons]
      exact isMonoAsc_cons_intro h (fun b hb => by
        simp only [List.head?_cons, Option.some.injEq] at hb
        omega)

theorem sortByDs_mono (l : List QueryRow) :
    isMonoAsc ((sortByDs l).map QueryRow.ds) = true := by
  induction l with
  | nil => rfl
  | cons x xs ih => exact insertByDs_mono ih

theorem insertByDs_perm (x : QueryRow) (l : List QueryRow) :
    (insertByDs x l).Perm (x :: l) := by
  induction l with
  | nil => exact List.Perm.refl _
  | cons y ys ih =>
    by_cases hlt : y.ds < x.ds
    · simp only [insertByDs, if_pos hlt]
      exact ((ih.cons y).trans (List.Perm.swap x y ys))
    · simp only [insertByDs, if_neg hlt]
      exact List.Perm.refl _

theorem sortByDs_perm (l : List QueryRow) : (sortByDs l).Perm l := by
  induction l with
  | nil => exact List.Perm.refl _
  | cons x xs ih => exact (insertByDs_perm x (sortByDs xs)).trans (ih.cons x)

theorem merge_asof_eq (left : List QueryRow) (right : List (Int × Option ℚ))
    (b : Bool) (hl : isMonoAsc (left.map QueryRow.ds) = true)
    (hr : isMonoAsc (right.map Prod.fst) = true) :
    merge_asof left right b = some (left.map (fun r =>
      { idx := r.idx, ds := r.ds, extra := r.extra,
        yhat := ((right.filter (fun p =>
            if b then decide (p.1 ≤ r.ds) else decide (p.1 < r.ds))).getLast?).bind
          Prod.snd })) := by
  simp [merge_asof, hl, hr]

theorem getLast_filter_bind (f : (Int × ℚ) → Int) (td : List (Int × ℚ))
    (pred : Int → Bool) :
    ((td.map (fun p => (f p, some p.2))).filter (fun p => pred p.1)).getLast?.bind
        Prod.snd
      = ((td.filter (fun p => pred (f p))).getLast?).map Prod.snd := by
  rw [List.filter_map, List.getLast?_map]
  have hpred : td.filter ((fun p : Int × Option ℚ => pred p.1) ∘
      (fun p : Int × ℚ => (f p, some p.2))) = td.filter (fun p => pred (f p)) := rfl
  rw [hpred]
  cases (td.filter (fun p => pred (f p))).getLast? <;> rfl

theorem latestValue_predict_fit (td : List (Int × ℚ))
    (df : List QueryRow) (mx : Int × ℚ)
    (hr : isMonoAsc (td.map Prod.fst) = true)
    (hl : isMonoAsc (df.map QueryRow.ds) = true)
    (hmx : idxmaxRow td = some mx) :
    (LatestValuePersistence.init.fit td).predict df
      = .ok (fillna (some mx.2) (df.map (fun r =>
          { idx := r.idx, ds := r.ds, extra := r.extra,
            yhat := ((td.filter
              (fun p => decide (p.1 < r.ds))).getLast?).map Prod.snd }))) := by
  have hr2 : isMonoAsc ((td.map
      (fun p : Int × ℚ => (p.1, some p.2))).map Prod.fst) = true := by
    rw [List.map_map]; exact hr
  simp only [LatestValuePersistence.predict, LatestValuePersistence.fit,
    LatestValuePersistence.init, Bool.not_true, Bool.false_eq_true, if_false]
  rw [merge_asof_eq df _ false hl hr2, hmx]
  have hmapeq : df.map (fun r : QueryRow =>
      ({ idx := r.idx, ds := r.ds, extra := r.extra,
         yhat := (((td.map (fun p : Int × ℚ => (p.1, some p.2))).filter (fun p =>
             if false then decide (p.1 ≤ r.ds)
             else decide (p.1 < r.ds))).getLast?).bind Prod.snd } : OutRow))
      = df.map (fun r : QueryRow =>
      ({ idx := r.idx, ds := r.ds, extra := r.extra,
         yhat := ((td.filter
           (fun p => decide (p.1 < r.ds))).getLast?).map Prod.snd } : OutRow)) := by
    refine List.map_congr_left (fun r _ => ?_)
    have := getLast_filter_bind Prod.fst td (fun k => decide (k < r.ds))
    simp only [OutRow.mk.injEq, true_and]
    exact this
  rw [hmapeq]

theorem slidingWindow_predict_fit (w : Nat) (td : List (Int × ℚ))
    (df : List QueryRow)
    (hr : isMonoAsc (td.map Prod.fst) = true)
    (hl : isMonoAsc (df.map QueryRow.ds) = true) :
    (((SlidingWindowPersistence.init w).fit td).predict df)
      = .ok (fillna (nanmean ((rollingMean w td).map Prod.snd)) (df.map (fun r =>
          { idx := r.idx, ds := r.ds, extra := r.extra,
            yhat := (((rollingMean w td).filter
              (fun p => decide (p.1 ≤ r.ds))).getLast?).bind Prod.snd }))) := by
  have hr2 : isMonoAsc ((rollingMean w td).map Prod.fst) = true := by
    rw [rollingMean_map_fst]; exact hr
  simp only [SlidingWindowPersistence.predict, SlidingWindowPersistence.fit,
    SlidingWindowPersistence.init, Bool.not_true, Bool.false_eq_true, if_false]
  rw [merge_asof_eq df _ true hl hr2]
  rfl

theorem laggedValue_predict_fit (L : Int) (td : List (Int × ℚ))
    (df : List QueryRow)
    (hr : isMonoAsc (td.map Prod.fst) = true) :
    (((LaggedValuePersistence.init L).fit td).predict df)
      = .ok (fillna (listMean (td.map Prod.snd)) ((sortByDs df).map (fun r =>
          { idx := r.idx, ds := r.ds, extra := r.extra,
            yhat := ((td.filter
              (fun p => decide (p.1 + L ≤ r.ds))).getLast?).map Prod.snd }))) := by
  have hr2 : isMonoAsc (((td.map (fun p : Int × ℚ => (p.1 + L, p.2))).map
      (fun p : Int × ℚ => (p.1, some p.2))).map Prod.fst) = true := by
    have e1 : ((td.map (fun p : Int × ℚ => (p.1 + L, p.2))).map
        (fun p : Int × ℚ => (p.1, some p.2))).map Prod.fst
        = td.map (fun p : Int × ℚ => p.1 + L) := by
      rw [List.map_map, List.map_map]; rfl
    have e2 : td.map (fun p : Int × ℚ => p.1 + L)
        = (td.map Prod.fst).map (fun x => x + L) := by
      rw [List.map_map]; rfl
    rw [e1, e2, isMonoAsc_map_add]
    exact hr
  simp only [LaggedValuePersistence.predict, LaggedValuePersistence.fit,
    LaggedValuePersistence.init, Bool.not_true, Bool.false_eq_true, if_false]
  rw [merge_asof_eq (sortByDs df) _ true (sortByDs_mono df) hr2]
  have hmapeq : (sortByDs df).map (fun r : QueryRow =>
      ({ idx := r.idx, ds := r.ds, extra := r.extra,
         yhat := ((((td.map (fun p : Int × ℚ => (p.1 + L, p.2))).map
             (fun p : Int × ℚ => (p.1, some p.2))).filter (fun p =>
             if true then decide (p.1 ≤ r.ds)
             else decide (p.1 < r.ds))).getLast?).bind Prod.snd } : OutRow))
      = (sortByDs df).map (fun r : QueryRow =>
      ({ idx := r.idx, ds := r.ds, extra := r.extra,
         yhat := ((td.filter
           (fun p => decide (p.1 + L ≤ r.ds))).getLast?).map Prod.snd } : OutRow)) := by
    refine List.map_congr_left (fun r _ => ?_)
    simp only [OutRow.mk.injEq, true_and]
    have hmm : (td.map (fun p : Int × ℚ => (p.1 + L, p.2))).map
        (fun p : Int × ℚ => (p.1, some p.2))
        = td.map (fun p : Int × ℚ => ((fun q : Int × ℚ => q.1 + L) p, some p.2)) := by
      rw [List.map_map]; rfl
    rw [hmm]
    exact getLast_filter_bind (fun q => q.1 + L) td (fun k => decide (k ≤ r.ds))
  rw [hmapeq]
  have hmean : (td.map (fun p : Int × ℚ => (p.1 + L, p.2))).map Prod.snd
      = td.map Prod.snd := by
    rw [List.map_map]; rfl
  rw [hmean]

theorem filter_fst_lt_eq_nil {α : Type} (l : List (Int × α)) (q : Int)
    (h : ∀ p ∈ l, ¬ p.1 < q) : l.filter (fun p => decide (p.1 < q)) = [] :=
  List.filter_eq_nil_iff.mpr (fun p hp => by simpa using h p hp)

theorem filter_fst_le_eq_nil {α : Type} (l : List (Int × α)) (q : Int)
    (h : ∀ p ∈ l, ¬ p.1 ≤ q) : l.filter (fun p => decide (p.1 ≤ q)) = [] :=
  List.filter_eq_nil_iff.mpr (fun p hp => by simpa using h p hp)

theorem filter_fst_le_eq_self {α : Type} (l : List (Int × α)) (q : Int)
    (h : ∀ p ∈ l, p.1 ≤ q) : l.filter (fun p => decide (p.1 ≤ q)) = l :=
  List.filter_eq_self.mpr (fun p hp => by simpa using h p hp)

theorem splitLoopW_eq (_df : List Int) (tw : Int) (maxTP : Option Int)
    (fuel : Nat) (ts te tend maxd : Int) :
    splitLoopW _df tw maxTP fuel ts te tend maxd =
      if tend < maxd then
        if tw ≤ 0 then none
        else
          match fuel with
          | 0 => none
          | fuel' + 1 =>
            let train := _df.filter (fun d => decide (ts ≤ d) && decide (d < te))
            let test := _df.filter (fun d => decide (te ≤ d) && decide (d < tend))
            let ts' := match maxTP with
              | some mtp => (te + tw) - mtp
              | none => ts
            let rest := splitLoopW _df tw maxTP fuel' ts' (te + tw) (tend + tw) maxd
            if train.length > 0 && test.length > 0 then
              rest.map (fun l => ((te, tend), (train, test)) :: l)
            else rest
      else some [] := by
  rw [splitLoopW.eq_def]

theorem splitLoopW_stop (_df : List Int) (tw : Int) (maxTP : Option Int)
    (fuel : Nat) (ts te tend maxd : Int) (hlt : ¬ tend < maxd) :
    splitLoopW _df tw maxTP fuel ts te tend maxd = some [] := by
  rw [splitLoopW_eq, if_neg hlt]

theorem splitLoopW_nonpos (_df : List Int) (tw : Int) (maxTP : Option Int)
    (fuel : Nat) (ts te tend maxd : Int) (hlt : tend < maxd) (htw : tw ≤ 0) :
    splitLoopW _df tw maxTP fuel ts te tend maxd = none := by
  rw [splitLoopW_eq, if_pos hlt, if_pos htw]

theorem splitLoopW_zero (_df : List Int) (tw : Int) (maxTP : Option Int)
    (ts te tend maxd : Int) (hlt : tend < maxd) (htw : ¬ tw ≤ 0) :
    splitLoopW _df tw maxTP 0 ts te tend maxd = none := by
  rw [splitLoopW_eq, if_pos hlt, if_neg htw]

theorem splitLoopW_succ (_df : List Int) (tw : Int) (maxTP : Option Int)
    (fuel : Nat) (ts te tend maxd : Int) (hlt : tend < maxd) (htw : ¬ tw ≤ 0) :
    splitLoopW _df tw maxTP (fuel + 1) ts te tend maxd =
      (let train := _df.filter (fun d => decide (ts ≤ d) && decide (d < te))
       let test := _df.filter (fun d => decide (te ≤ d) && decide (d < tend))
       let ts' := match maxTP with
         | some mtp => (te + tw) - mtp
         | none => ts
       let rest := splitLoopW _df tw maxTP fuel ts' (te + tw) (tend + tw) maxd
       if train.length > 0 && test.length > 0 then
         rest.map (fun l => ((te, tend), (train, test)) :: l)
       else rest) := by
  rw [splitLoopW_eq, if_pos hlt, if_neg htw]

theorem splitLoopW_entries {_df : List Int} {tw : Int} {maxTP : Option Int} :
    ∀ {fuel : Nat} {ts te tend maxd : Int}
      {l : List ((Int × Int) × (List Int × List Int))},
      splitLoopW _df tw maxTP fuel ts te tend maxd = some l →
      tend = te + tw →
      ∀ e ∈ l,
        (∃ k : Nat, e.1.1 = te + k * tw) ∧
        e.1.2 = e.1.1 + tw ∧
        e.2.1 ≠ [] ∧ e.2.2 ≠ [] ∧
        (∀ a ∈ e.2.1, a < e.1.1) ∧
        (∀ b ∈ e.2.2, e.1.1 ≤ b ∧ b < e.1.2) := by
  intro fuel
  induction fuel with
  | zero =>
    intro ts te tend maxd l h hinv e he
    by_cases hlt : tend < maxd
    · by_cases htw : tw ≤ 0
      · rw [splitLoopW_nonpos _ _ _ _ _ _ _ _ hlt htw] at h; cases h
      · rw [splitLoopW_zero _ _ _ _ _ _ _ hlt htw] at h; cases h
    · rw [splitLoopW_stop _ _ _ _ _ _ _ _ hlt] at h
      cases h
      cases he
  | succ fuel ih =>
    intro ts te tend maxd l h hinv e he
    by_cases hlt : tend < maxd
    · by_cases htw : tw ≤ 0
      · rw [splitLoopW_nonpos _ _ _ _ _ _ _ _ hlt htw] at h; cases h
      · rw [splitLoopW_succ _ _ _ _ _ _ _ _ hlt htw] at h
        simp only [] at h
        set ts2 := (match maxTP with
          | some mtp => (te + tw) - mtp
          | none => ts) with hts2
        cases hrest : splitLoopW _df tw maxTP fuel ts2
            (te + tw) (tend + tw) maxd with
        | none =>
          rw [hrest] at h
          by_cases hne : (_df.filter
                (fun d => decide (ts ≤ d) && decide (d < te))).length > 0
              ∧ (_df.filter
                (fun d => decide (te ≤ d) && decide (d < tend))).length > 0
          · rw [if_pos (by simpa using hne)] at h; cases h
          · rw [if_neg (by simpa using hne)] at h; cases h
        | some rest =>
          rw [hrest] at h
          have htail : ∀ e2 ∈ rest,
              (∃ k : Nat, e2.1.1 = te + k * tw) ∧
              e2.1.2 = e2.1.1 + tw ∧
              e2.2.1 ≠ [] ∧ e2.2.2 ≠ [] ∧
              (∀ a ∈ e2.2.1, a < e2.1.1) ∧
              (∀ b ∈ e2.2.2, e2.1.1 ≤ b ∧ b < e2.1.2) := by
            intro e2 he2
            obtain ⟨⟨k, hk⟩, hrest2⟩ := ih hrest (by omega) e2 he2
            exact ⟨⟨k + 1, by rw [hk]; push_cast; ring⟩, hrest2⟩
          by_cases hne : (_df.filter
                (fun d => decide (ts ≤ d) && decide (d < te))).length > 0
              ∧ (_df.filter
                (fun d => decide (te ≤ d) && decide (d < tend))).length > 0
          · rw [if_pos (by simpa using hne)] at h
            simp only [Option.map_some', Option.some.injEq] at h
            subst h
            rcases List.mem_cons.mp he with rfl | he2
            · refine ⟨⟨0, by show te = te + (0:ℕ) * tw; simp⟩,
                by show tend = te + tw; omega,
                List.ne_nil_of_length_pos hne.1,
                List.ne_nil_of_length_pos hne.2, ?_, ?_⟩
              · intro a ha
                simp only [List.mem_filter, Bool.and_eq_true,
                  decide_eq_true_eq] at ha
                exact ha.2.2
              · intro b hb
                simp only [List.mem_filter, Bool.and_eq_true,
                  decide_eq_true_eq] at hb
                exact ⟨hb.2.1, hb.2.2⟩
            · exact htail e he2
          · rw [if_neg (by simpa using hne)] at h
            cases h
            exact htail e he
    · rw [splitLoopW_stop _ _ _ _ _ _ _ _ hlt] at h
      cases h
      cases he

theorem splitLoopW_chain {_df : List Int} {tw : Int} {maxTP : Option Int} :
    ∀ {fuel : Nat} {ts te tend maxd : Int}
      {l : List ((Int × Int) × (List Int × List Int))},
      splitLoopW _df tw maxTP fuel ts te tend maxd = some l →
      tend = te + tw →
      List.Chain' (fun e1 e2 =>
        (∃ k : Nat, 1 ≤ k ∧ e2.1.1 = e1.1.1 + k * tw) ∧
        ∀ b ∈ e1.2.2, ∀ b2 ∈ e2.2.2, b < b2) l := by
  intro fuel
  induction fuel with
  | zero =>
    intro ts te tend maxd l h hinv
    by_cases hlt : tend < maxd
    · by_cases htw : tw ≤ 0
      · rw [splitLoopW_nonpos _ _ _ _ _ _ _ _ hlt htw] at h; cases h
      · rw [splitLoopW_zero _ _ _ _ _ _ _ hlt htw] at h; cases h
    · rw [splitLoopW_stop _ _ _ _ _ _ _ _ hlt] at h
      cases h
      exact List.chain'_nil
  | succ fuel ih =>
    intro ts te tend maxd l h hinv
    by_cases hlt : tend < maxd
    · by_cases htw : tw ≤ 0
      · rw [splitLoopW_nonpos _ _ _ _ _ _ _ _ hlt htw] at h; cases h
      · rw [splitLoopW_succ _ _ _ _ _ _ _ _ hlt htw] at h
        simp only [] at h
        set ts2 := (match maxTP with
          | some mtp => (te + tw) - mtp
          | none => ts) with hts2
        cases hrest : splitLoopW _df tw maxTP fuel ts2
            (te + tw) (tend + tw) maxd with
        | none =>
          rw [hrest] at h
          by_cases hne : (_df.filter
                (fun d => decide (ts ≤ d) && decide (d < te))).length > 0
              ∧ (_df.filter
                (fun d => decide (te ≤ d) && decide (d < tend))).length > 0
          · rw [if_pos (by simpa using hne)] at h; cases h
          · rw [if_neg (by simpa using hne)] at h; cases h
        | some rest =>
          rw [hrest] at h
          have hchain : List.Chain' _ rest := ih hrest (by omega)
          by_cases hne : (_df.filter
                (fun d => decide (ts ≤ d) && decide (d < te))).length > 0
              ∧ (_df.filter
                (fun d => decide (te ≤ d) && decide (d < tend))).length > 0
          · rw [if_pos (by simpa using hne)] at h
            simp only [Option.map_some', Option.some.injEq] at h
            subst h
            refine List.chain'_cons'.mpr ⟨?_, hchain⟩
            intro y hy
            have hymem : y ∈ rest := List.mem_of_mem_head? hy
            obtain ⟨⟨k, hk⟩, _, _, _, _, hytest⟩ :=
              splitLoopW_entries hrest (by omega) y hymem
            constructor
            · refine ⟨k + 1, by omega, ?_⟩
              show y.1.1 = te + (((k + 1 : ℕ) : Int)) * tw
              rw [hk]; push_cast; ring
            · intro b hb b2 hb2
              simp only [List.mem_filter, Bool.and_eq_true,
                decide_eq_true_eq] at hb
              have h1 : y.1.1 ≤ b2 := (hytest b2 hb2).1
              have h2 : (0:Int) ≤ (k : Int) * tw :=
                mul_nonneg (by positivity) (by omega)
              have h3 : b < tend := hb.2.2
              omega
          · rw [if_neg (by simpa using hne)] at h
            cases h
            exact hchain
    · rw [splitLoopW_stop _ _ _ _ _ _ _ _ hlt] at h
      cases h
      exact List.chain'_nil

theorem ceilDiv_succ_le {d t : Nat} (ht : 1 ≤ t) (hd : 1 ≤ d) :
    (d - t + (t - 1)) / t + 1 ≤ (d + (t - 1)) / t := by
  by_cases hdt : d ≤ t
  · have h1 : d - t = 0 := by omega
    rw [h1]
    have h2 : (0 + (t - 1)) / t = 0 := Nat.div_eq_of_lt (by omega)
    rw [h2]
    have h3 : 1 ≤ (d + (t - 1)) / t := by
      rw [Nat.le_div_iff_mul_le (by omega)]
      omega
    omega
  · have h1 : d - t + (t - 1) + t = d + (t - 1) := by omega
    have heq : (d + (t - 1)) / t = (d - t + (t - 1)) / t + 1 := by
      rw [← h1]
      exact Nat.add_div_right _ (by omega)
    omega

theorem ceilDiv_sub_le_div {e t : Nat} (ht : 1 ≤ t) :
    (e - t + (t - 1)) / t ≤ e / t := by
  by_cases het : e ≤ t
  · have h1 : e - t = 0 := by omega
    rw [h1]
    have h2 : (0 + (t - 1)) / t = 0 := Nat.div_eq_of_lt (by omega)
    rw [h2]
    exact Nat.zero_le _
  · have h1 : e - t + (t - 1) = e - 1 := by omega
    rw [h1]
    exact Nat.div_le_div_right (by omega)

theorem splitLoopW_length {_df : List Int} {tw : Int} {maxTP : Option Int}
    (htw : 1 ≤ tw) :
    ∀ {fuel : Nat} {ts te tend maxd : Int}
      {l : List ((Int × Int) × (List Int × List Int))},
      splitLoopW _df tw maxTP fuel ts te tend maxd = some l →
      l.length ≤ ((maxd - tend).toNat + (tw.toNat - 1)) / tw.toNat := by
  intro fuel
  induction fuel with
  | zero =>
    intro ts te tend maxd l h
    by_cases hlt : tend < maxd
    · by_cases htw0 : tw ≤ 0
      · rw [splitLoopW_nonpos _ _ _ _ _ _ _ _ hlt htw0] at h; cases h
      · rw [splitLoopW_zero _ _ _ _ _ _ _ hlt htw0] at h; cases h
    · rw [splitLoopW_stop _ _ _ _ _ _ _ _ hlt] at h
      cases h
      simp
  | succ fuel ih =>
    intro ts te tend maxd l h
    by_cases hlt : tend < maxd
    · have htw0 : ¬ tw ≤ 0 := by omega
      rw [splitLoopW_succ _ _ _ _ _ _ _ _ hlt htw0] at h
      simp only [] at h
      set ts2 := (match maxTP with
        | some mtp => (te + tw) - mtp
        | none => ts) with hts2
      cases hrest : splitLoopW _df tw maxTP fuel ts2
          (te + tw) (tend + tw) maxd with
      | none =>
        rw [hrest] at h
        by_cases hne : (_df.filter
              (fun d => decide (ts ≤ d) && decide (d < te))).length > 0
            ∧ (_df.filter
              (fun d => decide (te ≤ d) && decide (d < tend))).length > 0
        · rw [if_pos (by simpa using hne)] at h; cases h
        · rw [if_neg (by simpa using hne)] at h; cases h
      | some rest =>
        rw [hrest] at h
        have hlen : rest.length
            ≤ ((maxd - (tend + tw)).toNat + (tw.toNat - 1)) / tw.toNat :=
          ih hrest
        have hsub : (maxd - (tend + tw)).toNat
            = (maxd - tend).toNat - tw.toNat := by omega
        rw [hsub] at hlen
        have hstep : rest.length + 1
            ≤ ((maxd - tend).toNat + (tw.toNat - 1)) / tw.toNat := by
          have := ceilDiv_succ_le (t := tw.toNat) (d := (maxd - tend).toNat)
            (by omega) (by omega)
          omega
        by_cases hne : (_df.filter
              (fun d => decide (ts ≤ d) && decide (d < te))).length > 0
            ∧ (_df.filter
              (fun d => decide (te ≤ d) && decide (d < tend))).length > 0
        · rw [if_pos (by simpa using hne)] at h
          simp only [Option.map_some', Option.some.injEq] at h
          subst h
          simpa using hstep
        · rw [if_neg (by simpa using hne)] at h
          cases h
          omega
    · rw [splitLoopW_stop _ _ _ _ _ _ _ _ hlt] at h
      cases h
      simp

theorem splitLoopW_isSome {_df : List Int} {tw : Int} {maxTP : Option Int}
    (htw : 1 ≤ tw) :
    ∀ {fuel : Nat} {ts te tend maxd : Int},
      (maxd - tend).toNat < fuel →
      (splitLoopW _df tw maxTP fuel ts te tend maxd).isSome = true := by
  intro fuel
  induction fuel with
  | zero => intro ts te tend maxd hf; omega
  | succ fuel ih =>
    intro ts te tend maxd hf
    by_cases hlt : tend < maxd
    · have htw0 : ¬ tw ≤ 0 := by omega
      rw [splitLoopW_succ _ _ _ _ _ _ _ _ hlt htw0]
      simp only []
      set ts2 := (match maxTP with
        | some mtp => (te + tw) - mtp
        | none => ts) with hts2
      have hrec := @ih ts2 (te + tw) (tend + tw) maxd (by omega)
      cases hrest : splitLoopW _df tw maxTP fuel ts2
          (te + tw) (tend + tw) maxd with
      | none => rw [hrest] at hrec; cases hrec
      | some rest =>
        split <;> rfl
    · rw [splitLoopW_stop _ _ _ _ _ _ _ _ hlt]; rfl

/-! Claim theorems. -/

/-- C7: for every model variant, calling `predict` before any successful
`fit` fails with the "model must be fit" (untrained-model) error, and
after a successful `fit` (on any training frame) `predict` never raises
that error (it may still raise a pandas `ValueError`, but not the
untrained-model one). -/
theorem claim_C7_untrained_guard :
    (∀ df, LatestValuePersistence.init.predict df
        = .error .untrained) ∧
    (∀ w df, (SlidingWindowPersistence.init w).predict df
        = .error .untrained) ∧
    (∀ L df, (LaggedValuePersistence.init L).predict df
        = .error .untrained) ∧
    (∀ td df, (LatestValuePersistence.init.fit td).predict df
        ≠ .error .untrained) ∧
    (∀ w td df, ((SlidingWindowPersistence.init w).fit td).predict df
        ≠ .error .untrained) ∧
    (∀ L td df, ((LaggedValuePersistence.init L).fit td).predict df
        ≠ .error .untrained) := by
  refine ⟨fun df => rfl, fun w df => rfl, fun L df => rfl, ?_, ?_, ?_⟩
  · intro td df hcontra
    simp only [LatestValuePersistence.predict, LatestValuePersistence.fit,
      LatestValuePersistence.init, Bool.not_true, Bool.false_eq_true,
      if_false] at hcontra
    cases hm : merge_asof df (td.map (fun p => (p.1, some p.2))) false with
    | none => rw [hm] at hcontra; simp at hcontra
    | some pr =>
      rw [hm] at hcontra
      cases hmx : idxmaxRow td with
      | none => rw [hmx] at hcontra; simp at hcontra
      | some mx => rw [hmx] at hcontra; simp at hcontra
  · intro w td df hcontra
    simp only [SlidingWindowPersistence.predict, SlidingWindowPersistence.fit,
      SlidingWindowPersistence.init, Bool.not_true, Bool.false_eq_true,
      if_false] at hcontra
    cases hm : merge_asof df (rollingMean w td) true with
    | none => rw [hm] at hcontra; simp at hcontra
    | some pr => rw [hm] at hcontra; simp at hcontra
  · intro L td df hcontra
    simp only [LaggedValuePersistence.predict, LaggedValuePersistence.fit,
      LaggedValuePersistence.init, Bool.not_true, Bool.false_eq_true,
      if_false] at hcontra
    cases hm : merge_asof (sortByDs df)
        ((td.map (fun p => (p.1 + L, p.2))).map (fun p => (p.1, some p.2)))
        true with
    | none => rw [hm] at hcontra; simp at hcontra
    | some pr => rw [hm] at hcontra; simp at hcontra

/-- C5: `cross_val_split` reports the configuration `ValueError` when
`test_window` is `None`, and when both training-period bounds are given
with the maximum smaller than the minimum; in both cases the result is an
error, so no `(train, test)` pair is ever produced. -/
theorem claim_C5_config_rejection :
    (∀ df minTP maxTP, cross_val_split df minTP maxTP none
        = some (.error (.valueError
            "Size of test window must be specified."))) ∧
    (∀ df mnp mtp tw, mtp < mnp →
        cross_val_split df (some mnp) (some mtp) (some tw)
          = some (.error (.valueError
              "Maximum training period must be larger than the minimum training period"))) := by
  constructor
  · intro df minTP maxTP; rfl
  · intro df mnp mtp tw h
    simp only [cross_val_split]
    rw [if_pos (show invalidPeriods (some mtp) (some mnp) = true by
      simp [invalidPeriods, h])]

/-- Witness for C5 at a concrete frame and configuration. -/
theorem claim_C5_config_rejection_witness :
    cross_val_split [0, 10] (some 10) (some 5) none
      = some (.error (.valueError
          "Size of test window must be specified.")) ∧
    cross_val_split [0, 10] (some 10) (some 5) (some 1)
      = some (.error (.valueError
          "Maximum training period must be larger than the minimum training period")) :=
  ⟨claim_C5_config_rejection.1 [0, 10] (some 10) (some 5),
   claim_C5_config_rejection.2 [0, 10] 10 5 1 (by omega)⟩

/-- C10: on a frame with zero rows, any configuration that passes
validation makes `cross_val_split` fail with the `IndexError` of
`iloc[-1]` on the empty frame; it neither reports a configuration error
nor yields an empty sequence of splits. -/
theorem claim_C10_empty_frame :
    ∀ minTP maxTP tw : Option Int, ∀ twv : Int, tw = some twv →
      (∀ mtp mnp, maxTP = some mtp → minTP = some mnp → mnp ≤ mtp) →
      cross_val_split [] minTP maxTP tw = some (.error .indexError) := by
  intro minTP maxTP tw twv htw h
  subst htw
  cases maxTP with
  | none => cases minTP <;> rfl
  | some mtp =>
    cases minTP with
    | none => rfl
    | some mnp =>
      have hc : ¬ mtp < mnp := by
        have := h mtp mnp rfl rfl
        omega
      simp only [cross_val_split]
      rw [if_neg (show ¬ invalidPeriods (some mtp) (some mnp) = true by
        simp [invalidPeriods, hc])]
      rfl

/-- Witness for C10 at a concrete valid configuration. -/
theorem claim_C10_empty_frame_witness :
    cross_val_split [] (some 1) none (some 1)
      = some (.error .indexError) :=
  claim_C10_empty_frame (some 1) none (some 1) 1 rfl
    (fun mtp mnp hmax _ => by cases hmax)

/-- C8 counterexample: omitting `minimum_training_period` from the call
leaves it at the Python default `'7d'`, not at `test_window`.  On the
frame `[0,1,2,3]` with `test_window = 1`, the call with every optional
parameter at its default produces no splits (the first train window spans
7, which exhausts the data), while a minimum training period equal to
`test_window` produces the pair `([0], [1])` whose first train window
spans `test_window`. -/
theorem claim_C8_counterexample :
    cross_val_split_with_defaults [0, 1, 2, 3] = some (.ok []) ∧
    cross_val_split [0, 1, 2, 3] (some 1) none (some 1)
      = some (.ok [([0], [1])]) ∧
    ([] : List (List Int × List Int)) ≠ [([0], [1])] :=
  ⟨rfl, rfl, by simp⟩

/-- C8 amended: it is passing `None` (not omitting the argument) that
makes the minimum training period default to `test_window`: with
`minimum_training_period = None` the call behaves exactly like passing
`test_window` explicitly, provided the max-versus-min validation (which
is skipped when `None` is passed) would not have rejected the explicit
call.  The omitted argument defaults to the 7-day Timedelta instead. -/
theorem claim_C8_amended :
    ∀ df maxTP tw, (∀ mtp, maxTP = some mtp → tw ≤ mtp) →
      cross_val_split df none maxTP (some tw)
        = cross_val_split df (some tw) maxTP (some tw) := by
  intro df maxTP tw h
  cases maxTP with
  | none => rfl
  | some mtp =>
    have hc : ¬ mtp < tw := by
      have := h mtp rfl
      omega
    simp [cross_val_split, invalidPeriods, hc]

/-- Witness for the amended C8 at a concrete frame. -/
theorem claim_C8_amended_witness :
    cross_val_split [0, 1, 2, 3] none none (some 1)
      = cross_val_split [0, 1, 2, 3] (some 1) none (some 1) :=
  claim_C8_amended [0, 1, 2, 3] none 1 (fun mtp hmax => by cases hmax)

/-- C9 counterexample: `fit` does not sort the training frame, so fitting
on a permutation of the training rows does not reproduce the predictions
of fitting on the timestamp-sorted rows: the as-of join raises the pandas
`ValueError` for unsorted keys instead of succeeding. -/
theorem claim_C9_counterexample :
    (LatestValuePersistence.init.fit [(5, 1), (0, 2)]).predict
        [⟨0, 6, []⟩] = .error .valueError ∧
    (LatestValuePersistence.init.fit [(0, 2), (5, 1)]).predict
        [⟨0, 6, []⟩] = .ok [⟨0, 6, [], some 1⟩] ∧
    (Except.error PredictError.valueError : Except PredictError (List OutRow))
      ≠ .ok [⟨0, 6, [], some 1⟩] :=
  ⟨rfl, rfl, by simp⟩

/-- C9 amended: none of the three `fit` implementations sorts the
training data; the join step of `predict` instead requires the stored
reference frame to be timestamp-sorted and raises the pandas `ValueError`
whenever the training frame was not sorted by `ds` (for
`LaggedValuePersistence`, not sorted after the lag shift, which preserves
order).  Only the timestamp-sorted training frame yields predictions. -/
theorem merge_asof_unsorted_right (left : List QueryRow)
    (right : List (Int × Option ℚ)) (b : Bool)
    (hr : isMonoAsc (right.map Prod.fst) = false) :
    merge_asof left right b = none := by
  unfold merge_asof
  rw [hr]
  simp

theorem claim_C9_amended :
    ∀ td df, isMonoAsc (td.map Prod.fst) = false →
      (LatestValuePersistence.init.fit td).predict df
          = .error .valueError ∧
      (∀ w, ((SlidingWindowPersistence.init w).fit td).predict df
          = .error .valueError) ∧
      (∀ L, ((LaggedValuePersistence.init L).fit td).predict df
          = .error .valueError) := by
  intro td df hbad
  refine ⟨?_, ?_, ?_⟩
  · have hr : isMonoAsc ((td.map
        (fun p : Int × ℚ => (p.1, some p.2))).map Prod.fst) = false := by
      rw [List.map_map]
      exact hbad
    simp only [LatestValuePersistence.predict, LatestValuePersistence.fit,
      LatestValuePersistence.init, Bool.not_true, Bool.false_eq_true,
      if_false]
    rw [merge_asof_unsorted_right df _ false hr]
  · intro w
    have hr : isMonoAsc ((rollingMean w td).map Prod.fst) = false := by
      rw [rollingMean_map_fst]
      exact hbad
    simp only [SlidingWindowPersistence.predict, SlidingWindowPersistence.fit,
      SlidingWindowPersistence.init, Bool.not_true, Bool.false_eq_true,
      if_false]
    rw [merge_asof_unsorted_right df _ true hr]
  · intro L
    have hr : isMonoAsc (((td.map (fun p : Int × ℚ => (p.1 + L, p.2))).map
        (fun p : Int × ℚ => (p.1, some p.2))).map Prod.fst) = false := by
      have e1 : ((td.map (fun p : Int × ℚ => (p.1 + L, p.2))).map
          (fun p : Int × ℚ => (p.1, some p.2))).map Prod.fst
          = td.map (fun p : Int × ℚ => p.1 + L) := by
        rw [List.map_map, List.map_map]; rfl
      have e2 : td.map (fun p : Int × ℚ => p.1 + L)
          = (td.map Prod.fst).map (fun x => x + L) := by
        rw [List.map_map]; rfl
      rw [e1, e2, isMonoAsc_map_add]
      exact hbad
    simp only [LaggedValuePersistence.predict, LaggedValuePersistence.fit,
      LaggedValuePersistence.init, Bool.not_true, Bool.false_eq_true,
      if_false]
    rw [merge_asof_unsorted_right (sortByDs df) _ true hr]

/-- Witness for the amended C9 at a concrete unsorted training frame. -/
theorem claim_C9_amended_witness :
    (LatestValuePersistence.init.fit [(5, 1), (0, 2)]).predict
        [⟨0, 6, []⟩] = .error .valueError ∧
    ((SlidingWindowPersistence.init 1).fit [(5, 1), (0, 2)]).predict
        [⟨0, 6, []⟩] = .error .valueError ∧
    ((LaggedValuePersistence.init 2).fit [(5, 1), (0, 2)]).predict
        [⟨0, 6, []⟩] = .error .valueError := by
  have h := claim_C9_amended [(5, 1), (0, 2)] [⟨0, 6, []⟩] rfl
  exact ⟨h.1, h.2.1 1, h.2.2 2⟩

/-- C6 counterexample: `test_window = 0` passes validation (it is not
`None`), yet on a frame spanning more than the minimum training period
the walk-forward loop never advances `test_end` and never terminates (the
divergence marker `none` of the embedding); the produced sequence is not
finite. -/
theorem claim_C6_counterexample :
    cross_val_split [0, 10] (some 7) none (some 0) = none := rfl

/-- C3 counterexample: `predict` ends with `DataFrame.fillna` on the
whole frame, so a missing value in a column other than `ds` is not passed
through untouched: it is overwritten with the model's fill value.  Here
the input row has the single extra cell `NaN`, and the output row carries
`5` (the latest training value) in that cell. -/
theorem claim_C3_counterexample :
    (LatestValuePersistence.init.fit [(0, 5)]).predict [⟨0, 1, [none]⟩]
      = .ok [⟨0, 1, [some 5], some 5⟩] ∧
    [some (5 : ℚ)] ≠ [(none : Option ℚ)] :=
  ⟨rfl, by simp⟩

/-- C1: the as-of join of `LatestValuePersistence.predict` matches with
strict comparison: a query at timestamp `T` receives the value of the
last training row strictly before `T`, even when a training row at
exactly `T` exists; the joins of `SlidingWindowPersistence.predict` and
`LaggedValuePersistence.predict` allow exact matches: a query landing
exactly on the last (rolling / lag-shifted) reference timestamp receives
the value stored at that very timestamp. -/
theorem claim_C1_strict_vs_inclusive :
    (∀ td (q : QueryRow) (prev : Int × ℚ),
       isMonoAsc (td.map Prod.fst) = true →
       (td.filter (fun p => decide (p.1 < q.ds))).getLast? = some prev →
       (∀ c ∈ q.extra, c.isSome = true) →
       (LatestValuePersistence.init.fit td).predict [q]
         = .ok [⟨q.idx, q.ds, q.extra, some prev.2⟩]) ∧
    (∀ w td (q : QueryRow) (rv : ℚ),
       isMonoAsc (td.map Prod.fst) = true →
       (rollingMean w td).getLast? = some (q.ds, some rv) →
       (∀ c ∈ q.extra, c.isSome = true) →
       ((SlidingWindowPersistence.init w).fit td).predict [q]
         = .ok [⟨q.idx, q.ds, q.extra, some rv⟩]) ∧
    (∀ L td (q : QueryRow) (Tm : Int) (v : ℚ),
       isMonoAsc (td.map Prod.fst) = true →
       td.getLast? = some (Tm, v) →
       q.ds = Tm + L →
       (∀ c ∈ q.extra, c.isSome = true) →
       ((LaggedValuePersistence.init L).fit td).predict [q]
         = .ok [⟨q.idx, q.ds, q.extra, some v⟩]) := by
  refine ⟨?_, ?_, ?_⟩
  · intro td q prev hmono hprev hextra
    have hne : td ≠ [] := by
      intro hn
      subst hn
      simp at hprev
    obtain ⟨mx, hmx⟩ := Option.isSome_iff_exists.mp (idxmaxRow_isSome hne)
    rw [latestValue_predict_fit td [q] mx hmono rfl hmx]
    simp only [fillna, List.map_cons, List.map_nil, hprev, Option.map_some',
      fillCell_some]
    rw [map_fillCell_of_all_isSome _ hextra]
  · intro w td q rv hmono hlast hextra
    rw [slidingWindow_predict_fit w td [q] hmono rfl]
    have hmono2 : isMonoAsc ((rollingMean w td).map Prod.fst) = true := by
      rw [rollingMean_map_fst]
      exact hmono
    have hlast2 : ((rollingMean w td).map Prod.fst).getLast? = some q.ds := by
      rw [List.getLast?_map, hlast]
      rfl
    have hall : ∀ p ∈ rollingMean w td, p.1 ≤ q.ds := fun p hp =>
      isMonoAsc_le_getLast hmono2 hlast2 p.1 (List.mem_map_of_mem Prod.fst hp)
    simp only [fillna, List.map_cons, List.map_nil,
      filter_fst_le_eq_self _ _ hall, hlast, Option.some_bind, fillCell_some]
    rw [map_fillCell_of_all_isSome _ hextra]
  · intro L td q Tm v hmono hlast hq hextra
    rw [laggedValue_predict_fit L td [q] hmono]
    have hlast2 : (td.map Prod.fst).getLast? = some Tm := by
      rw [List.getLast?_map, hlast]
      rfl
    have hfilter : td.filter (fun p => decide (p.1 + L ≤ q.ds)) = td := by
      apply List.filter_eq_self.mpr
      intro p hp
      have hple : p.1 ≤ Tm :=
        isMonoAsc_le_getLast hmono hlast2 p.1 (List.mem_map_of_mem Prod.fst hp)
      simp only [decide_eq_true_eq]
      omega
    simp only [sortByDs, insertByDs, fillna, List.map_cons, List.map_nil,
      hfilter, hlast, Option.map_some', fillCell_some]
    rw [map_fillCell_of_all_isSome _ hextra]

/-- Witness for C1: training data holds `y = 10` at `ds = 5` (and `y = 3`
at `ds = 0`).  A query at exactly `ds = 5` gets `3` (the strictly
previous value) from `LatestValuePersistence`, but `10` (the value at
`ds = 5`) from `SlidingWindowPersistence` with window 1, and `10` from
`LaggedValuePersistence` queried at the lag-shifted timestamp `7`. -/
theorem claim_C1_strict_vs_inclusive_witness :
    (LatestValuePersistence.init.fit [(0, 3), (5, 10)]).predict [⟨0, 5, []⟩]
      = .ok [⟨0, 5, [], some 3⟩] ∧
    ((SlidingWindowPersistence.init 1).fit [(0, 3), (5, 10)]).predict
        [⟨0, 5, []⟩] = .ok [⟨0, 5, [], some 10⟩] ∧
    ((LaggedValuePersistence.init 2).fit [(0, 3), (5, 10)]).predict
        [⟨0, 7, []⟩] = .ok [⟨0, 7, [], some 10⟩] :=
  ⟨claim_C1_strict_vs_inclusive.1 [(0, 3), (5, 10)] ⟨0, 5, []⟩ (0, 3)
      rfl rfl (by simp),
   claim_C1_strict_vs_inclusive.2.1 1 [(0, 3), (5, 10)] ⟨0, 5, []⟩ 10
      rfl (by norm_num [rollingMean, rollingMeanGo, listMean]) (by simp),
   claim_C1_strict_vs_inclusive.2.2 2 [(0, 3), (5, 10)] ⟨0, 7, []⟩ 5 10
      rfl rfl rfl (by simp)⟩

/-- C2: on a query whose timestamp precedes every reference timestamp
(so the backward as-of join finds no match), the filled `yhat` is: the
single training value at the maximal training timestamp for
`LatestValuePersistence` (the first row attaining the maximum, which
bounds every training timestamp); the mean of the rolling-mean series for
`SlidingWindowPersistence`; and the mean of the (lag-shifted) training
values for `LaggedValuePersistence`. -/
theorem claim_C2_fallbacks :
    (∀ td (q : QueryRow) (mx : Int × ℚ),
       isMonoAsc (td.map Prod.fst) = true →
       idxmaxRow td = some mx →
       (∀ p ∈ td, q.ds < p.1) →
       (∀ c ∈ q.extra, c.isSome = true) →
       ((LatestValuePersistence.init.fit td).predict [q]
           = .ok [⟨q.idx, q.ds, q.extra, some mx.2⟩])
         ∧ (∀ p ∈ td, p.1 ≤ mx.1)) ∧
    (∀ w td (q : QueryRow),
       isMonoAsc (td.map Prod.fst) = true →
       (∀ p ∈ td, q.ds < p.1) →
       (∀ c ∈ q.extra, c.isSome = true) →
       ((SlidingWindowPersistence.init w).fit td).predict [q]
         = .ok [⟨q.idx, q.ds, q.extra,
             nanmean ((rollingMean w td).map Prod.snd)⟩]) ∧
    (∀ L td (q : QueryRow),
       isMonoAsc (td.map Prod.fst) = true →
       (∀ p ∈ td, q.ds < p.1 + L) →
       (∀ c ∈ q.extra, c.isSome = true) →
       ((LaggedValuePersistence.init L).fit td).predict [q]
         = .ok [⟨q.idx, q.ds, q.extra, listMean (td.map Prod.snd)⟩]) := by
  refine ⟨?_, ?_, ?_⟩
  · intro td q mx hmono hmx hbefore hextra
    refine ⟨?_, fun p hp => idxmaxRow_le hmx hp⟩
    rw [latestValue_predict_fit td [q] mx hmono rfl hmx]
    have hnil : td.filter (fun p => decide (p.1 < q.ds)) = [] :=
      filter_fst_lt_eq_nil td q.ds (fun p hp => by
        have := hbefore p hp
        omega)
    simp only [fillna, List.map_cons, List.map_nil, hnil, List.getLast?_nil,
      Option.map_none', fillCell]
    rw [map_fillCell_of_all_isSome _ hextra]
  · intro w td q hmono hbefore hextra
    rw [slidingWindow_predict_fit w td [q] hmono rfl]
    have hnil : (rollingMean w td).filter (fun p => decide (p.1 ≤ q.ds)) = [] :=
      filter_fst_le_eq_nil _ q.ds (fun p hp => by
        have hmem : p.1 ∈ (rollingMean w td).map Prod.fst :=
          List.mem_map_of_mem Prod.fst hp
        rw [rollingMean_map_fst] at hmem
        obtain ⟨p2, hp2, hp2eq⟩ := List.mem_map.mp hmem
        have := hbefore p2 hp2
        omega)
    simp only [fillna, List.map_cons, List.map_nil, hnil, List.getLast?_nil,
      Option.none_bind, fillCell]
    rw [map_fillCell_of_all_isSome _ hextra]
  · intro L td q hmono hbefore hextra
    rw [laggedValue_predict_fit L td [q] hmono]
    have hnil : td.filter (fun p => decide (p.1 + L ≤ q.ds)) = [] :=
      List.filter_eq_nil_iff.mpr (fun p hp => by
        have := hbefore p hp
        simp only [decide_eq_true_eq]
        omega)
    simp only [sortByDs, insertByDs, fillna, List.map_cons, List.map_nil,
      hnil, List.getLast?_nil, Option.map_none', fillCell]
    rw [map_fillCell_of_all_isSome _ hextra]

/-- Witness for C2: queries at `ds = -4` (before all training rows). -/
theorem claim_C2_fallbacks_witness :
    (LatestValuePersistence.init.fit [(0, 3), (5, 10)]).predict [⟨0, -4, []⟩]
      = .ok [⟨0, -4, [], some 10⟩] ∧
    ((SlidingWindowPersistence.init 2).fit [(0, 3), (5, 10)]).predict
        [⟨0, -4, []⟩]
      = .ok [⟨0, -4, [],
          nanmean ((rollingMean 2 [(0, 3), (5, 10)]).map Prod.snd)⟩] ∧
    ((LaggedValuePersistence.init 2).fit [(0, 3), (5, 10)]).predict
        [⟨0, -4, []⟩]
      = .ok [⟨0, -4, [], listMean ([(0, 3), (5, 10)].map Prod.snd)⟩] :=
  ⟨((claim_C2_fallbacks.1 [(0, 3), (5, 10)] ⟨0, -4, []⟩ (5, 10)
      rfl rfl (by decide) (by simp)).1),
   claim_C2_fallbacks.2.1 2 [(0, 3), (5, 10)] ⟨0, -4, []⟩
      rfl (by decide) (by simp),
   claim_C2_fallbacks.2.2 2 [(0, 3), (5, 10)] ⟨0, -4, []⟩
      rfl (by decide) (by simp)⟩

/-- A cell of an input column is kept by `predict` when a present value
comes back unchanged (missing cells are exactly what `fillna`
overwrites). -/
def cellKept (c cO : Option ℚ) : Prop := c.isSome = true → cO = c

/-- An output row corresponds to an input row: same index label, same
timestamp, and every present cell of the other columns unchanged. -/
def rowKept (i : QueryRow) (o : OutRow) : Prop :=
  o.idx = i.idx ∧ o.ds = i.ds ∧ List.Forall₂ cellKept i.extra o.extra

theorem forall₂_cellKept_fill (v : Option ℚ) (e : List (Option ℚ)) :
    List.Forall₂ cellKept e (e.map (fillCell v)) := by
  induction e with
  | nil => exact List.Forall₂.nil
  | cons c t ih =>
    refine List.Forall₂.cons ?_ ih
    intro hc
    rcases Option.isSome_iff_exists.mp hc with ⟨x, rfl⟩
    rfl

theorem merge_asof_some {left : List QueryRow} {right : List (Int × Option ℚ)}
    {b : Bool} {res : List OutRow} (h : merge_asof left right b = some res) :
    res = left.map (fun r =>
      { idx := r.idx, ds := r.ds, extra := r.extra,
        yhat := ((right.filter (fun p =>
            if b then decide (p.1 ≤ r.ds) else decide (p.1 < r.ds))).getLast?).bind
          Prod.snd }) := by
  unfold merge_asof at h
  by_cases hc : (isMonoAsc (left.map QueryRow.ds)
      && isMonoAsc (right.map Prod.fst)) = true
  · rw [if_pos hc] at h
    exact (Option.some.inj h).symm
  · rw [if_neg hc] at h
    cases h

theorem forall₂_rowKept_fillna (v : Option ℚ) (df : List QueryRow)
    (F : QueryRow → OutRow)
    (hF : ∀ r, ∃ y, F r
      = { idx := r.idx, ds := r.ds, extra := r.extra, yhat := y }) :
    List.Forall₂ rowKept df (fillna v (df.map F)) := by
  unfold fillna
  rw [List.map_map, List.forall₂_map_right_iff]
  refine List.forall₂_same.mpr (fun r _ => ?_)
  obtain ⟨y, hy⟩ := hF r
  simp only [Function.comp_apply]
  rw [hy]
  exact ⟨rfl, rfl, forall₂_cellKept_fill v r.extra⟩

theorem fillna_map_idx (v : Option ℚ) (l : List QueryRow)
    (F : QueryRow → OutRow)
    (hF : ∀ r, ∃ y, F r
      = { idx := r.idx, ds := r.ds, extra := r.extra, yhat := y }) :
    (fillna v (l.map F)).map OutRow.idx = l.map QueryRow.idx := by
  unfold fillna
  rw [List.map_map, List.map_map]
  refine List.map_congr_left (fun r _ => ?_)
  obtain ⟨y, hy⟩ := hF r
  simp only [Function.comp_apply]
  rw [hy]

/-- C3 amended: whenever `predict` succeeds it returns one output row per
input row with the index label, the timestamp and every present cell of
the other columns unchanged; for `LatestValuePersistence` and
`SlidingWindowPersistence` the rows come back in the input order, while
`LaggedValuePersistence` returns them in timestamp-sorted order (with the
same multiset of row identities).  Missing cells of other columns are not
passed through untouched (see the counterexample): they are overwritten
by the final `fillna`. -/
theorem claim_C3_amended :
    ∀ td df out,
      ((LatestValuePersistence.init.fit td).predict df = .ok out →
        List.Forall₂ rowKept df out) ∧
      (∀ w, ((SlidingWindowPersistence.init w).fit td).predict df = .ok out →
        List.Forall₂ rowKept df out) ∧
      (∀ L, ((LaggedValuePersistence.init L).fit td).predict df = .ok out →
        List.Forall₂ rowKept (sortByDs df) out ∧
          (out.map OutRow.idx).Perm (df.map QueryRow.idx)) := by
  intro td df out
  refine ⟨?_, ?_, ?_⟩
  · intro h
    simp only [LatestValuePersistence.predict, LatestValuePersistence.fit,
      LatestValuePersistence.init, Bool.not_true, Bool.false_eq_true,
      if_false] at h
    cases hm : merge_asof df (td.map (fun p => (p.1, some p.2))) false with
    | none => rw [hm] at h; cases h
    | some pr =>
      rw [hm] at h
      cases hmx : idxmaxRow td with
      | none => rw [hmx] at h; cases h
      | some mx =>
        rw [hmx] at h
        have hout : out = fillna (some mx.2) pr := (Except.ok.inj h).symm
        subst hout
        rw [merge_asof_some hm]
        exact forall₂_rowKept_fillna _ df _ (fun r => ⟨_, rfl⟩)
  · intro w h
    simp only [SlidingWindowPersistence.predict, SlidingWindowPersistence.fit,
      SlidingWindowPersistence.init, Bool.not_true, Bool.false_eq_true,
      if_false] at h
    cases hm : merge_asof df (rollingMean w td) true with
    | none => rw [hm] at h; cases h
    | some pr =>
      rw [hm] at h
      have hout : out = fillna (nanmean ((rollingMean w td).map Prod.snd)) pr :=
        (Except.ok.inj h).symm
      subst hout
      rw [merge_asof_some hm]
      exact forall₂_rowKept_fillna _ df _ (fun r => ⟨_, rfl⟩)
  · intro L h
    simp only [LaggedValuePersistence.predict, LaggedValuePersistence.fit,
      LaggedValuePersistence.init, Bool.not_true, Bool.false_eq_true,
      if_false] at h
    cases hm : merge_asof (sortByDs df)
        ((td.map (fun p => (p.1 + L, p.2))).map (fun p => (p.1, some p.2)))
        true with
    | none => rw [hm] at h; cases h
    | some pr =>
      rw [hm] at h
      have hout : out = fillna
          (listMean (((td.map (fun p => (p.1 + L, p.2)))).map Prod.snd)) pr :=
        (Except.ok.inj h).symm
      subst hout
      rw [merge_asof_some hm]
      constructor
      · exact forall₂_rowKept_fillna _ (sortByDs df) _ (fun r => ⟨_, rfl⟩)
      · rw [fillna_map_idx _ (sortByDs df) _ (fun r => ⟨_, rfl⟩)]
        exact (sortByDs_perm df).map QueryRow.idx

/-- Witness for the amended C3: one query row with index label 3 and a
present extra cell, against each fitted variant. -/
theorem claim_C3_amended_witness :
    List.Forall₂ rowKept [⟨3, 1, [some 2]⟩] [⟨3, 1, [some 2], some 5⟩] ∧
    List.Forall₂ rowKept (sortByDs [⟨3, 1, [some 2]⟩])
      [⟨3, 1, [some 2], some 5⟩] ∧
    (([⟨3, 1, [some 2], some 5⟩] : List OutRow).map OutRow.idx).Perm
      (([⟨3, 1, [some 2]⟩] : List QueryRow).map QueryRow.idx) := by
  have h1 := (claim_C3_amended [(0, 5)] [⟨3, 1, [some 2]⟩]
      [⟨3, 1, [some 2], some 5⟩]).1 rfl
  have h2 := (claim_C3_amended [(0, 5)] [⟨3, 1, [some 2]⟩]
      [⟨3, 1, [some 2], some 5⟩]).2.1 1 (by
    norm_num [SlidingWindowPersistence.predict, SlidingWindowPersistence.fit,
      SlidingWindowPersistence.init, merge_asof, isMonoAsc, rollingMean,
      rollingMeanGo, listMean, fillna, fillCell, nanmean])
  have h3 := (claim_C3_amended [(0, 5)] [⟨3, 1, [some 2]⟩]
      [⟨3, 1, [some 2], some 5⟩]).2.2 0 (by
    norm_num [LaggedValuePersistence.predict, LaggedValuePersistence.fit,
      LaggedValuePersistence.init, merge_asof, isMonoAsc, sortByDs,
      insertByDs, listMean, fillna, fillCell])
  exact ⟨h1, h3.1, h3.2⟩

/-- C4 counterexample: with data `[0, 3, 8, 20]`, a minimum training
period of 2 and a test window of 2, two pairs are emitted, but the
iterations between them are skipped (empty test windows), so the test
windows of the consecutive emitted pairs are `[2, 4)` and `[8, 10)`:
they advance by `6 = 3 · test_window`, not by exactly `test_window`. -/
theorem claim_C4_counterexample :
    cross_val_split [0, 3, 8, 20] (some 2) none (some 2)
      = some (.ok [([0], [3]), ([0, 3], [8])]) ∧
    splitLoopW [0, 3, 8, 20] 2 none 17 0 2 4 20
      = some [((2, 4), ([0], [3])), ((8, 10), ([0, 3], [8]))] ∧
    ¬ List.Chain' (fun e1 e2 => e2.1.1 = e1.1.1 + 2)
        [((2, 4), ([0], [3])), ((8, 10), ([0, 3], [8]))] := by
  refine ⟨rfl, rfl, ?_⟩
  intro hchain
  exact absurd (List.chain'_cons.mp hchain).1 (by decide)

/-- C4 amended: every successful run of `cross_val_split` is the
projection of an instrumented run whose emitted entries carry their
`[train_end, test_end)` windows.  Every emitted window has width
`test_window`, train and test parts are non-empty, every train timestamp
is strictly below every test timestamp of its own pair, and consecutive
emitted windows advance by a positive integer multiple of `test_window`
(exactly one `test_window` when no intervening iteration was skipped for
emptiness), so successive test windows never overlap. -/
theorem claim_C4_amended :
    ∀ df minTP maxTP tw pairs,
      cross_val_split df minTP maxTP (some tw) = some (.ok pairs) →
      ∃ entries : List ((Int × Int) × (List Int × List Int)),
        pairs = entries.map Prod.snd ∧
        (∀ e ∈ entries,
          e.1.2 = e.1.1 + tw ∧ e.2.1 ≠ [] ∧ e.2.2 ≠ [] ∧
          (∀ a ∈ e.2.1, a < e.1.1) ∧
          (∀ b ∈ e.2.2, e.1.1 ≤ b ∧ b < e.1.2)) ∧
        List.Chain' (fun e1 e2 =>
          (∃ k : Nat, 1 ≤ k ∧ e2.1.1 = e1.1.1 + k * tw) ∧
          ∀ b ∈ e1.2.2, ∀ b2 ∈ e2.2.2, b < b2) entries ∧
        (∀ p ∈ pairs, p.1 ≠ [] ∧ p.2 ≠ [] ∧
          ∀ a ∈ p.1, ∀ b ∈ p.2, a < b) ∧
        List.Chain' (fun p q => ∀ b ∈ p.2, ∀ b2 ∈ q.2, b < b2) pairs := by
  intro df minTP maxTP tw pairs h
  simp only [cross_val_split] at h
  by_cases hc : invalidPeriods maxTP minTP = true
  · rw [if_pos hc] at h
    simp at h
  · rw [if_neg hc] at h
    cases hlast : (sortTs df).getLast? with
    | none =>
      rw [hlast] at h
      cases hhead : (sortTs df).head? with
      | none => rw [hhead] at h; simp at h
      | some s => rw [hhead] at h; simp at h
    | some maxd =>
      cases hhead : (sortTs df).head? with
      | none => rw [hlast, hhead] at h; simp at h
      | some s =>
        rw [hlast, hhead] at h
        simp only [splitLoop] at h
        rw [Option.map_map] at h
        obtain ⟨entries, hW, hproj⟩ := Option.map_eq_some'.mp h
        have hpairs : pairs = entries.map Prod.snd := by
          have := congrArg (fun x : Except SplitError (List (List Int × List Int)) =>
            x) hproj
          simp only [Function.comp_apply] at hproj
          exact (Except.ok.inj hproj).symm
        have hent := splitLoopW_entries hW rfl
        have hchain := splitLoopW_chain hW rfl
        refine ⟨entries, hpairs, ?_, hchain, ?_, ?_⟩
        · intro e he
          obtain ⟨_, h2, h3, h4, h5, h6⟩ := hent e he
          exact ⟨h2, h3, h4, h5, h6⟩
        · intro p hp
          rw [hpairs] at hp
          obtain ⟨e, he, hpe⟩ := List.mem_map.mp hp
          obtain ⟨_, _, h3, h4, h5, h6⟩ := hent e he
          subst hpe
          exact ⟨h3, h4, fun a ha b hb =>
            lt_of_lt_of_le (h5 a ha) ((h6 b hb).1)⟩
        · rw [hpairs, List.chain'_map]
          exact hchain.imp (fun e1 e2 hr => hr.2)

/-- Witness for the amended C4 on the counterexample data. -/
theorem claim_C4_amended_witness :
    ∃ entries : List ((Int × Int) × (List Int × List Int)),
      [([0], [3]), ([0, 3], [8])] = entries.map Prod.snd ∧
      (∀ e ∈ entries,
        e.1.2 = e.1.1 + 2 ∧ e.2.1 ≠ [] ∧ e.2.2 ≠ [] ∧
        (∀ a ∈ e.2.1, a < e.1.1) ∧
        (∀ b ∈ e.2.2, e.1.1 ≤ b ∧ b < e.1.2)) ∧
      List.Chain' (fun e1 e2 =>
        (∃ k : Nat, 1 ≤ k ∧ e2.1.1 = e1.1.1 + (k : Int) * 2) ∧
        ∀ b ∈ e1.2.2, ∀ b2 ∈ e2.2.2, b < b2) entries ∧
      (∀ p ∈ ([([0], [3]), ([0, 3], [8])] : List (List Int × List Int)),
        p.1 ≠ [] ∧ p.2 ≠ [] ∧ ∀ a ∈ p.1, ∀ b ∈ p.2, a < b) ∧
      List.Chain' (fun p q => ∀ b ∈ p.2, ∀ b2 ∈ q.2, b < b2)
        ([([0], [3]), ([0, 3], [8])] : List (List Int × List Int)) :=
  claim_C4_amended [0, 3, 8, 20] (some 2) none 2 [([0], [3]), ([0, 3], [8])] rfl

/-- C6 amended: for every positive `test_window` the walk-forward
generator terminates (the embedding never returns the divergence marker),
and for a sorted series starting at `s` and ending at `maxd` the number
of emitted pairs is at most
`⌊(maxd - s - minimum_training_period) / test_window⌋`; a zero or
negative `test_window` passes validation but makes the loop run forever
(see the counterexample). -/
theorem claim_C6_amended :
    ∀ df minTP maxTP tw, 1 ≤ tw →
      (cross_val_split df minTP maxTP (some tw)).isSome = true ∧
      (∀ pairs, cross_val_split df minTP maxTP (some tw) = some (.ok pairs) →
        pairs.length
          ≤ (((sortTs df).getLast?.getD 0 - (sortTs df).head?.getD 0)
              - minTP.getD tw).toNat / tw.toNat) := by
  intro df minTP maxTP tw htw
  constructor
  · simp only [cross_val_split]
    by_cases hc : invalidPeriods maxTP minTP = true
    · rw [if_pos hc]; rfl
    · rw [if_neg hc]
      cases hlast : (sortTs df).getLast? with
      | none =>
        cases hhead : (sortTs df).head? with
        | none => rfl
        | some s => rfl
      | some maxd =>
        cases hhead : (sortTs df).head? with
        | none => rfl
        | some s =>
          have hS := @splitLoopW_isSome (sortTs df) tw maxTP htw
            ((maxd - (s + minTP.getD tw + tw)).toNat + 1)
            s (s + minTP.getD tw) (s + minTP.getD tw + tw) maxd (by omega)
          simp only [splitLoop, Option.isSome_map']
          exact hS
  · intro pairs h
    simp only [cross_val_split] at h
    by_cases hc : invalidPeriods maxTP minTP = true
    · rw [if_pos hc] at h
      simp at h
    · rw [if_neg hc] at h
      cases hlast : (sortTs df).getLast? with
      | none =>
        rw [hlast] at h
        cases hhead : (sortTs df).head? with
        | none => rw [hhead] at h; simp at h
        | some s => rw [hhead] at h; simp at h
      | some maxd =>
        cases hhead : (sortTs df).head? with
        | none => rw [hlast, hhead] at h; simp at h
        | some s =>
          rw [hlast, hhead] at h
          simp only [splitLoop] at h
          rw [Option.map_map] at h
          obtain ⟨entries, hW, hproj⟩ := Option.map_eq_some'.mp h
          simp only [Function.comp_apply] at hproj
          have hpairs : pairs = entries.map Prod.snd :=
            (Except.ok.inj hproj).symm
          have hlen := splitLoopW_length htw hW
          have hsub : (maxd - (s + minTP.getD tw + tw)).toNat
              = (maxd - s - minTP.getD tw).toNat - tw.toNat := by omega
          rw [hsub] at hlen
          have hle := @ceilDiv_sub_le_div
            (maxd - s - minTP.getD tw).toNat tw.toNat (by omega)
          simp only [hpairs, hlast, hhead, Option.getD_some,
            List.length_map]
          omega

/-- Witness for the amended C6 on an eleven-point daily series. -/
theorem claim_C6_amended_witness :
    (cross_val_split [0, 1, 2, 3, 4, 5, 6, 7, 8, 9, 10]
        (some 2) none (some 3)).isSome = true ∧
    ([([0, 1], [2, 3, 4]), ([0, 1, 2, 3, 4], [5, 6, 7])]
        : List (List Int × List Int)).length
      ≤ (((sortTs [0, 1, 2, 3, 4, 5, 6, 7, 8, 9, 10]).getLast?.getD 0
          - (sortTs [0, 1, 2, 3, 4, 5, 6, 7, 8, 9, 10]).head?.getD 0)
          - (some (2 : Int)).getD 3).toNat / (3 : Int).toNat := by
  have h := claim_C6_amended [0, 1, 2, 3, 4, 5, 6, 7, 8, 9, 10]
    (some 2) none 3 (by omega)
  exact ⟨h.1, h.2 [([0, 1], [2, 3, 4]), ([0, 1, 2, 3, 4], [5, 6, 7])] rfl⟩
